import Mathlib

set_option maxHeartbeats 1000000

/-!
Shallow embedding of the block type registration pipeline from
`packages/blocks/src/store/actions.js`: the runtime value universe of the
host language, the `processBlockType` pipeline, and the store thunks
`__experimentalRegisterBlockType` and `__experimentalReapplyBlockTypeFilters`.
The filter mechanism (`applyFilters`), the category list returned by
`select.getCategories()`, and the submitted block type are parameters.
-/

/-- A runtime value of the host language, as far as this module observes it:
`null`, `undefined`, booleans, (integer) numbers, strings, opaque callables,
arrays, and plain objects given as insertion-ordered field lists. -/
inductive JSValue where
  | null
  | undefined
  | bool (b : Bool)
  | num (n : Int)
  | str (s : String)
  | func (id : Nat)
  | arr (elems : List JSValue)
  | obj (fields : List (String × JSValue))

/-- The field list of a plain object, in insertion order. -/
abbrev Fields := List (String × JSValue)

/-- A fault of the host runtime (a thrown TypeError). -/
inductive JsError where
  | typeError (msg : String)
deriving DecidableEq

/-- A diagnostic emitted while processing: `window.console.error`,
`window.console.warn`, or a notice from the deprecation helper. -/
inductive Diag where
  | error (msg : String)
  | warn (msg : String)
  | deprecationNotice (msg : String)
deriving DecidableEq

/-- Own-property lookup on a field list: first matching key, else `undefined`. -/
def getField : Fields → String → JSValue
  | [], _ => JSValue.undefined
  | (k, v) :: rest, key => if k == key then v else getField rest key

/-- Whether a field list carries the given key. -/
def hasField : Fields → String → Bool
  | [], _ => false
  | (k, _) :: rest, key => k == key || hasField rest key

/-- Property assignment on a field list: overwrite the first occurrence in
place when the key is present, append otherwise. -/
def setField : Fields → String → JSValue → Fields
  | [], k, v => [(k, v)]
  | (k1, v1) :: rest, k, v =>
    if k1 == k then (k, v) :: rest else (k1, v1) :: setField rest k v

/-- The `delete` operator on a field list. -/
def delField : Fields → String → Fields
  | [], _ => []
  | (k1, v1) :: rest, k =>
    if k1 == k then delField rest k else (k1, v1) :: delField rest k

/-- The `typeof` operator. -/
def jsTypeof : JSValue → String
  | .undefined => "undefined"
  | .null => "object"
  | .bool _ => "boolean"
  | .num _ => "number"
  | .str _ => "string"
  | .func _ => "function"
  | .arr _ => "object"
  | .obj _ => "object"

/-- Boolean coercion of a value (the truthiness test of an `if`). -/
def truthy : JSValue → Bool
  | .null => false
  | .undefined => false
  | .bool b => b
  | .num n => n != 0
  | .str s => s != ""
  | .func _ => true
  | .arr _ => true
  | .obj _ => true

/-- Whether a value is `null` or `undefined`. -/
def isNullish : JSValue → Bool
  | .null => true
  | .undefined => true
  | _ => false

/-- `isFunction` from `actions.js`: `typeof maybeFunc === 'function'`. -/
def isFunction (maybeFunc : JSValue) : Bool :=
  jsTypeof maybeFunc == "function"

/-- The `isPlainObject` predicate of the external `is-plain-object` package,
restricted to this value universe: true exactly for plain objects, false for
arrays, callables, and primitives. -/
def isPlainObject : JSValue → Bool
  | .obj _ => true
  | _ => false

/-- Total property read: field lookup on plain objects, `undefined` on every
other value. Used only where the embedding has established the base value is
not nullish. -/
def jsGet (v : JSValue) (k : String) : JSValue :=
  match v with
  | .obj f => getField f k
  | _ => JSValue.undefined

/-- The `in` operator restricted to own properties of plain objects. -/
def jsHasKey (v : JSValue) (k : String) : Bool :=
  match v with
  | .obj f => hasField f k
  | _ => false

/-- Property read as the host language performs it: reading from `null` or
`undefined` throws a TypeError; primitives box to property-less wrappers. -/
def getProp : JSValue → String → Except JsError JSValue
  | .null, key =>
    .error (.typeError ("Cannot read properties of null (reading " ++ key ++ ")"))
  | .undefined, key =>
    .error (.typeError ("Cannot read properties of undefined (reading " ++ key ++ ")"))
  | .obj f, key => .ok (getField f key)
  | _, _ => .ok JSValue.undefined

/-- Strict equality `v === s` against a string literal: true exactly when `v`
is that string. -/
def jsStrictEqStr (v : JSValue) (s : String) : Bool :=
  match v with
  | .str t => t == s
  | _ => false

mutual

/-- String coercion (`ToString`) of a value: primitives print their canonical
form, arrays join their elements with commas (nullish elements print empty),
plain objects print the object tag; callables are opaque here. -/
def jsToString : JSValue → String
  | .undefined => "undefined"
  | .null => "null"
  | .bool true => "true"
  | .bool false => "false"
  | .num n => toString n
  | .str s => s
  | .func _ => "function"
  | .arr es => String.intercalate "," (jsToStringElems es)
  | .obj _ => "[object Object]"

/-- Element-wise string coercion used by array `ToString`. -/
def jsToStringElems : List JSValue → List String
  | [] => []
  | JSValue.null :: rest => "" :: jsToStringElems rest
  | JSValue.undefined :: rest => "" :: jsToStringElems rest
  | v :: rest => jsToString v :: jsToStringElems rest

end

/-- Object spread `...v` inside an object literal: fields of a plain object,
index-keyed entries of an array or string, nothing for other values. -/
def spreadFields : JSValue → Fields
  | .obj f => f
  | .arr es => es.enum.map (fun p => (toString p.1, p.2))
  | .str s => (s.toList.enum.map (fun p => (toString p.1, JSValue.str (String.singleton p.2))))
  | _ => []

/-- `Object.fromEntries`: later pairs with a duplicate key overwrite earlier
ones, first occurrence keeps its position. -/
def fromEntries (l : Fields) : Fields :=
  l.foldl (fun acc p => setField acc p.1 p.2) []

/-- `Object.entries` as the host language performs it: throws on `null` and
`undefined`, yields the field list of a plain object, index-keyed entries for
arrays and strings, and nothing for the remaining primitives. -/
def jsObjectEntries : JSValue → Except JsError Fields
  | .null => .error (.typeError "Cannot convert undefined or null to object")
  | .undefined => .error (.typeError "Cannot convert undefined or null to object")
  | .obj f => .ok f
  | .arr es => .ok (es.enum.map (fun p => (toString p.1, p.2)))
  | .str s => .ok (s.toList.enum.map (fun p => (toString p.1, JSValue.str (String.singleton p.2))))
  | _ => .ok []

/-- Modelled from the spec: `DEPRECATED_ENTRY_KEYS` from `../api/constants` is
not under src/. The spec (section 4.3) lists the fixed deprecation-entry
allowlist as attributes, save, migrate, isEligible, supports. -/
def DEPRECATED_ENTRY_KEYS : List String :=
  ["attributes", "save", "supports", "migrate", "isEligible"]

/-- String membership in a key list (`Array.prototype.includes` on strings). -/
def containsStr : List String → String → Bool
  | [], _ => false
  | s :: rest, k => s == k || containsStr rest k

/-- Modelled from the spec: `omit` from `../api/utils` is not under src/. The
spec (section 4.3a) describes it as the candidate with the given key set
excluded. -/
def omitFields : Fields → List String → Fields
  | [], _ => []
  | (k1, v1) :: rest, keys =>
    if containsStr keys k1 then omitFields rest keys
    else (k1, v1) :: omitFields rest keys

/-- Modelled from the spec: `isValidIcon` from `../api/utils` is not under
src/. The spec (section 4.1 check 5) describes the icon-validity predicate as
accepting a non-empty string, a renderable element, or a callable; in this
value universe renderable elements are callables. -/
def isValidIcon : JSValue → Bool
  | .str s => s != ""
  | .func _ => true
  | _ => false

/-- Modelled from the spec: `normalizeIconObject` from `../api/utils` is not
under src/. The spec (sections 3 and 6) describes it as producing the
structured form with a `src` key: an absent icon is replaced by the default
slug, a valid renderer is wrapped as the `src` of a fresh object, and an
already-structured object passes through. -/
def normalizeIconObject (icon : JSValue) : JSValue :=
  let icon := if truthy icon then icon else JSValue.str "block-default"
  if isValidIcon icon then JSValue.obj [("src", icon)] else icon

/-- `LEGACY_CATEGORY_MAPPING` from `actions.js`, lines 38-42. -/
def LEGACY_CATEGORY_MAPPING : List (String × String) :=
  [("common", "text"), ("formatting", "text"), ("layout", "design")]

/-- The rejection message for a candidate that is not a plain object. -/
def invalidSettingsMsg : String := "Block settings must be a valid object."

/-- The rejection message for a missing or non-callable `save`. -/
def saveErrorMsg : String := "The \"save\" property must be a valid function."

/-- The rejection message for an `edit` property that is not callable. -/
def editErrorMsg : String := "The \"edit\" property must be a valid function."

/-- The warning for a category not among the known slugs, interpolating the
block name and the offending category value. -/
def invalidCategoryWarning (name category : JSValue) : String :=
  "The block \"" ++ jsToString name ++ "\" is registered with an invalid category \"" ++
    jsToString category ++ "\"."

/-- The rejection message for a missing or empty title. -/
def missingTitleMsg (name : JSValue) : String :=
  "The block \"" ++ jsToString name ++ "\" must have a title."

/-- The rejection message for a non-string title. -/
def titleStringMsg : String := "Block titles must be strings."

/-- The rejection message for an invalid icon. -/
def invalidIconMsg : String :=
  "The icon passed is invalid. The icon should be a string, an element, a function, or an object following the specifications documented in https://developer.wordpress.org/block-editor/developers/block-api/block-registration/#icon-optional"

/-- Sequential fallible map, as `Array.prototype.map` behaves when the mapped
function may throw: elements are visited in order and the first fault aborts
the traversal. -/
def exceptMapM (g : JSValue → Except JsError JSValue) :
    List JSValue → Except JsError (List JSValue)
  | [] => .ok []
  | d :: rest =>
    match g d with
    | .error e => .error e
    | .ok e =>
      match exceptMapM g rest with
      | .error e2 => .error e2
      | .ok l => .ok (e :: l)

/-- The merge base built for one deprecation entry, lines 92-97 of
`actions.js`: the raw submitted block type with the deprecation-entry key set
omitted, overlaid with the fields spread from the deprecation entry itself. -/
def mergeBase (blockType : Fields) (deprecation : JSValue) : Fields :=
  (spreadFields deprecation).foldl (fun acc p => setField acc p.1 p.2)
    (omitFields blockType DEPRECATED_ENTRY_KEYS)

/-- Processing of one deprecation entry, lines 83-102 of `actions.js`: run the
registration filter chain on the merge base with the original entry as filter
context, then keep only the allowlisted keys of the result. -/
def processDeprecatedEntry (applyFilters : JSValue → JSValue → JSValue → JSValue)
    (blockType : Fields) (name : JSValue) (deprecation : JSValue) :
    Except JsError JSValue :=
  match jsObjectEntries (applyFilters (JSValue.obj (mergeBase blockType deprecation)) name deprecation) with
  | .error e => .error e
  | .ok ents =>
    .ok (JSValue.obj (fromEntries (ents.filter (fun p => containsStr DEPRECATED_ENTRY_KEYS p.1))))

/-- `settings.deprecated.map(...)`: calling `.map` on a value that is not an
array throws a TypeError. -/
def jsArrayMapM (g : JSValue → Except JsError JSValue) :
    JSValue → Except JsError JSValue
  | .arr es =>
    match exceptMapM g es with
    | .error e => .error e
    | .ok l => .ok (JSValue.arr l)
  | _ => .error (.typeError "settings.deprecated.map is not a function")

/-- Property assignment on a value; only plain objects gain the field here
(every use site has already established the target is a plain object). -/
def setProp (v : JSValue) (k : String) (x : JSValue) : JSValue :=
  match v with
  | .obj f => JSValue.obj (setField f k x)
  | other => other

/-- Lines 120-123 of `actions.js`: canonicalize a legacy category slug to the
current one. `hasOwnProperty` and the bracket read coerce the category value
to a property key by string conversion. -/
def remapLegacyCategory (fields : Fields) : Fields :=
  match LEGACY_CATEGORY_MAPPING.lookup (jsToString (getField fields "category")) with
  | some mapped => setField fields "category" (JSValue.str mapped)
  | none => fields

/-- Lines 120-139 of `actions.js`: the category normalization region of
`processBlockType` — canonicalize a legacy slug, then warn about and strip a
category not among the known slugs. Returns the warnings emitted and the
resulting field list. -/
def normalizeCategoryStep (categories : List String) (name : JSValue) (fields : Fields) :
    List Diag × Fields :=
  let fields1 := remapLegacyCategory fields
  if hasField fields1 "category" &&
      !(categories.any (fun slug => jsStrictEqStr (getField fields1 "category") slug)) then
    ([Diag.warn (invalidCategoryWarning name (getField fields1 "category"))],
      delField fields1 "category")
  else ([], fields1)

/-- Lines 141-157 of `actions.js`: the title checks, the icon normalization,
and the icon check, after the category region produced `warns` and the field
list `fields2`. -/
def checkTitleIcon (name : JSValue) (warns : List Diag) (fields2 : Fields) :
    List Diag × Option JSValue :=
  if !(hasField fields2 "title") || jsStrictEqStr (getField fields2 "title") "" then
    (warns ++ [Diag.error (missingTitleMsg name)], none)
  else if jsTypeof (getField fields2 "title") != "string" then
    (warns ++ [Diag.error titleStringMsg], none)
  else
    let fields3 := setField fields2 "icon" (normalizeIconObject (getField fields2 "icon"))
    if !(isValidIcon (jsGet (getField fields3 "icon") "src")) then
      (warns ++ [Diag.error invalidIconMsg], none)
    else
      (warns, some (JSValue.obj fields3))

/-- Lines 106-159 of `actions.js`: the validation and normalization tail of
`processBlockType`, operating on the filtered (and deprecation-mapped)
settings value. `categories` is the slug list behind `select.getCategories()`
and `name` is the destructured name of the raw block type. Returns the
diagnostics emitted in order, and the accepted settings if any. -/
def validateSettings (categories : List String) (name : JSValue) (settings : JSValue) :
    List Diag × Option JSValue :=
  match settings with
  | .obj fields =>
    if !(isFunction (getField fields "save")) then
      ([Diag.error saveErrorMsg], none)
    else if hasField fields "edit" && !(isFunction (getField fields "edit")) then
      ([Diag.error editErrorMsg], none)
    else
      let step := normalizeCategoryStep categories name fields
      checkTitleIcon name step.1 step.2
  | _ => ([Diag.error invalidSettingsMsg], none)

/-- The settings value the registration filter chain produces for a raw block
type, line 69-74 of `actions.js`: the chain is applied to a spread copy of the
raw definition, with the block name and a `null` filter context. -/
def settingsOf (applyFilters : JSValue → JSValue → JSValue → JSValue)
    (blockType : Fields) : JSValue :=
  applyFilters (JSValue.obj blockType) (getField blockType "name") JSValue.null

/-- Lines 82-104 of `actions.js`: when the filtered settings carry a truthy
`deprecated` property, map every entry through the deprecation-entry
processing and assign the result back; otherwise leave the settings alone. -/
def deprecatedStep (applyFilters : JSValue → JSValue → JSValue → JSValue)
    (blockType : Fields) (name settings : JSValue) : Except JsError JSValue :=
  match getProp settings "deprecated" with
  | .error e => .error e
  | .ok depr =>
    if truthy depr then
      match jsArrayMapM (processDeprecatedEntry applyFilters blockType name) depr with
      | .error e => .error e
      | .ok mapped => .ok (setProp settings "deprecated" mapped)
    else .ok settings

/-- `processBlockType` from `actions.js`, lines 66-160. Diagnostics emitted
before a fault are kept; the second component is the thrown fault or the
returned value (`none` models the bare `return`). -/
def processBlockType (applyFilters : JSValue → JSValue → JSValue → JSValue)
    (categories : List String) (blockType : Fields) :
    List Diag × Except JsError (Option JSValue) :=
  let name := getField blockType "name"
  let settings := settingsOf applyFilters blockType
  match getProp settings "description" with
  | .error e => ([], .error e)
  | .ok desc =>
    let descDiags :=
      if truthy desc && jsTypeof desc != "string" then
        [Diag.deprecationNotice "Declaring non-string block descriptions"]
      else []
    match deprecatedStep applyFilters blockType name settings with
    | .error e => (descDiags, .error e)
    | .ok settings1 =>
      let step := validateSettings categories name settings1
      (descDiags ++ step.1, .ok step.2)

/-- A store mutation dispatched by the thunks of `actions.js`. -/
inductive StoreAction where
  | addUnprocessedBlockType (blockType : Fields)
  | addBlockTypes (blockTypes : List JSValue)
  | removeBlockTypes (names : List JSValue)

/-- `addBlockTypes` action creator, lines 179-184: a non-array argument is
wrapped into a singleton batch. -/
def addBlockTypes (blockTypes : JSValue) : StoreAction :=
  StoreAction.addBlockTypes (match blockTypes with | .arr l => l | v => [v])

/-- `removeBlockTypes` action creator, lines 264-269. -/
def removeBlockTypes (names : JSValue) : StoreAction :=
  StoreAction.removeBlockTypes (match names with | .arr l => l | v => [v])

/-- `__experimentalRegisterBlockType`, lines 191-204: dispatch the raw
candidate unconditionally, then process it, and dispatch the processed
definition only when processing returned one. The components are the actions
dispatched in order, the diagnostics, and the fault if one was thrown. -/
def __experimentalRegisterBlockType (applyFilters : JSValue → JSValue → JSValue → JSValue)
    (categories : List String) (blockType : Fields) :
    List StoreAction × List Diag × Option JsError :=
  let step := processBlockType applyFilters categories blockType
  match step.2 with
  | .error e => ([StoreAction.addUnprocessedBlockType blockType], step.1, some e)
  | .ok none => ([StoreAction.addUnprocessedBlockType blockType], step.1, none)
  | .ok (some s) =>
    ([StoreAction.addUnprocessedBlockType blockType, addBlockTypes s], step.1, none)

/-- The reduce of lines 226-238: process every stored raw definition in
iteration order and push the accepted results. Diagnostics accumulate across
entries; a fault aborts the fold. -/
def reapplyCollect (applyFilters : JSValue → JSValue → JSValue → JSValue)
    (categories : List String) :
    List (String × Fields) → List Diag × Except JsError (List JSValue)
  | [] => ([], .ok [])
  | (_, bt) :: rest =>
    let step := processBlockType applyFilters categories bt
    match step.2 with
    | .error e => (step.1, .error e)
    | .ok none =>
      let tail := reapplyCollect applyFilters categories rest
      (step.1 ++ tail.1, tail.2)
    | .ok (some s) =>
      let tail := reapplyCollect applyFilters categories rest
      (step.1 ++ tail.1,
        match tail.2 with
        | .error e => .error e
        | .ok l => .ok (s :: l))

/-- `__experimentalReapplyBlockTypeFilters`, lines 220-245: rebuild every
stored raw definition and dispatch the accepted ones as one batched add; when
nothing was accepted no action is dispatched. -/
def __experimentalReapplyBlockTypeFilters
    (applyFilters : JSValue → JSValue → JSValue → JSValue)
    (categories : List String)
    (unprocessedBlockTypes : List (String × Fields)) :
    List StoreAction × List Diag × Option JsError :=
  let step := reapplyCollect applyFilters categories unprocessedBlockTypes
  match step.2 with
  | .error e => ([], step.1, some e)
  | .ok [] => ([], step.1, none)
  | .ok l => ([addBlockTypes (JSValue.arr l)], step.1, none)

/-- The processed definition an entry contributes on reapply: the returned
settings when processing completes with a value, nothing otherwise. -/
def acceptedOf (applyFilters : JSValue → JSValue → JSValue → JSValue)
    (categories : List String) (blockType : Fields) : Option JSValue :=
  match (processBlockType applyFilters categories blockType).2 with
  | .ok (some s) => some s
  | _ => none

/-- The error-level diagnostics of a diagnostic list. -/
def errorDiags (l : List Diag) : List Diag :=
  l.filter (fun d => match d with | Diag.error _ => true | _ => false)

/-- The warning-level diagnostics of a diagnostic list. -/
def warnDiags (l : List Diag) : List Diag :=
  l.filter (fun d => match d with | Diag.warn _ => true | _ => false)

/-- Check 2 of the validator, as a predicate of the filtered settings value:
`save` is callable. -/
def saveOk (v : JSValue) : Bool := isFunction (jsGet v "save")

/-- Check 3 of the validator: `edit`, when present, is callable. -/
def editOk (v : JSValue) : Bool :=
  !(jsHasKey v "edit" && !(isFunction (jsGet v "edit")))

/-- First half of check 4 of the validator: `title` is present and is not the
empty string. -/
def titlePresentOk (v : JSValue) : Bool :=
  jsHasKey v "title" && !(jsStrictEqStr (jsGet v "title") "")

/-- Second half of check 4 of the validator: `title` is of string type. -/
def titleStringOk (v : JSValue) : Bool :=
  jsTypeof (jsGet v "title") == "string"

/-- Check 5 of the validator: the `src` of the normalized icon satisfies the
icon-validity predicate. -/
def iconOk (v : JSValue) : Bool :=
  isValidIcon (jsGet (normalizeIconObject (jsGet v "icon")) "src")

/-- Whether processing ended in a thrown fault. -/
def isFaulted (r : Except JsError (Option JSValue)) : Bool :=
  match r with
  | .error _ => true
  | .ok _ => false

/-- The diagnostics of the description check, lines 76-80 of `actions.js`: a
deprecation notice when the filtered settings carry a truthy non-string
description. -/
def descDiagsOf (settings : JSValue) : List Diag :=
  if truthy (jsGet settings "description") &&
      jsTypeof (jsGet settings "description") != "string" then
    [Diag.deprecationNotice "Declaring non-string block descriptions"]
  else []

theorem getField_setField_self (f : Fields) (k : String) (v : JSValue) :
    getField (setField f k v) k = v := by
  induction f with
  | nil => simp [setField, getField]
  | cons a rest ih =>
    obtain ⟨a1, a2⟩ := a
    cases ha : (a1 == k)
    · simp [setField, getField, ha, ih]
    · simp [setField, getField, ha]

theorem getField_setField_ne (f : Fields) (k k' : String) (v : JSValue)
    (h : k ≠ k') :
    getField (setField f k v) k' = getField f k' := by
  induction f with
  | nil => simp [setField, getField, h]
  | cons a rest ih =>
    obtain ⟨a1, a2⟩ := a
    cases ha : (a1 == k)
    · simp [setField, getField, ha, ih]
    · rw [beq_iff_eq] at ha
      subst ha
      simp [setField, getField, h, Ne.symm h, ih]

theorem hasField_setField (f : Fields) (k k' : String) (v : JSValue) :
    hasField (setField f k v) k' = (hasField f k' || (k == k')) := by
  induction f with
  | nil => simp [setField, hasField, Bool.or_comm]
  | cons a rest ih =>
    obtain ⟨a1, a2⟩ := a
    cases ha : (a1 == k)
    · simp [setField, hasField, ha, ih, Bool.or_assoc]
    · rw [beq_iff_eq] at ha
      subst ha
      cases hk : (a1 == k')
      · simp [setField, hasField, hk]
      · rw [beq_iff_eq] at hk
        subst hk
        simp [setField, hasField]

theorem getField_delField_ne (f : Fields) (k k' : String) (h : k ≠ k') :
    getField (delField f k) k' = getField f k' := by
  induction f with
  | nil => rfl
  | cons a rest ih =>
    obtain ⟨a1, a2⟩ := a
    cases ha : (a1 == k)
    · simp [delField, getField, ha, ih]
    · rw [beq_iff_eq] at ha
      subst ha
      simp [delField, getField, h, ih]

theorem hasField_delField_ne (f : Fields) (k k' : String) (h : k ≠ k') :
    hasField (delField f k) k' = hasField f k' := by
  induction f with
  | nil => rfl
  | cons a rest ih =>
    obtain ⟨a1, a2⟩ := a
    cases ha : (a1 == k)
    · simp [delField, hasField, ha, ih]
    · rw [beq_iff_eq] at ha
      subst ha
      simp [delField, hasField, ih, h]

theorem hasField_delField_self (f : Fields) (k : String) :
    hasField (delField f k) k = false := by
  induction f with
  | nil => rfl
  | cons a rest ih =>
    obtain ⟨a1, a2⟩ := a
    cases ha : (a1 == k)
    · simp [delField, hasField, ha, ih]
    · simp [delField, ha, ih]

theorem getField_of_not_hasField (f : Fields) (k : String)
    (h : hasField f k = false) : getField f k = JSValue.undefined := by
  induction f with
  | nil => rfl
  | cons a rest ih =>
    obtain ⟨a1, a2⟩ := a
    cases ha : (a1 == k)
    · simp only [hasField, ha, Bool.false_or] at h
      simp [getField, ha, ih h]
    · simp [hasField, ha] at h

theorem getField_remapLegacy_ne (fields : Fields) (k : String) (h : k ≠ "category") :
    getField (remapLegacyCategory fields) k = getField fields k := by
  unfold remapLegacyCategory
  cases LEGACY_CATEGORY_MAPPING.lookup (jsToString (getField fields "category")) with
  | none => rfl
  | some mapped => exact getField_setField_ne fields "category" k _ (Ne.symm h)

theorem hasField_remapLegacy_ne (fields : Fields) (k : String) (h : k ≠ "category") :
    hasField (remapLegacyCategory fields) k = hasField fields k := by
  unfold remapLegacyCategory
  cases LEGACY_CATEGORY_MAPPING.lookup (jsToString (getField fields "category")) with
  | none => rfl
  | some mapped =>
    rw [hasField_setField]
    have : ("category" == k) = false := by
      simp [Ne.symm h]
    simp [this]

theorem hasField_remapLegacy_category (fields : Fields) :
    hasField (remapLegacyCategory fields) "category" = hasField fields "category" := by
  unfold remapLegacyCategory
  cases hlook : LEGACY_CATEGORY_MAPPING.lookup (jsToString (getField fields "category")) with
  | none => rfl
  | some mapped =>
    rw [hasField_setField]
    cases hf : hasField fields "category"
    · rw [getField_of_not_hasField fields "category" hf] at hlook
      have hnone : LEGACY_CATEGORY_MAPPING.lookup (jsToString JSValue.undefined) = none := by
        decide
      rw [hnone] at hlook
      cases hlook
    · simp

theorem normalizeCategoryStep_getField_ne (categories : List String) (name : JSValue)
    (fields : Fields) (k : String) (h : k ≠ "category") :
    getField (normalizeCategoryStep categories name fields).2 k = getField fields k := by
  unfold normalizeCategoryStep
  cases hc : (hasField (remapLegacyCategory fields) "category" &&
      !(categories.any (fun slug => jsStrictEqStr (getField (remapLegacyCategory fields) "category") slug)))
  · simp [hc, getField_remapLegacy_ne fields k h]
  · simp [hc, getField_delField_ne _ _ _ (Ne.symm h), getField_remapLegacy_ne fields k h]

theorem normalizeCategoryStep_hasField_ne (categories : List String) (name : JSValue)
    (fields : Fields) (k : String) (h : k ≠ "category") :
    hasField (normalizeCategoryStep categories name fields).2 k = hasField fields k := by
  unfold normalizeCategoryStep
  cases hc : (hasField (remapLegacyCategory fields) "category" &&
      !(categories.any (fun slug => jsStrictEqStr (getField (remapLegacyCategory fields) "category") slug)))
  · simp [hc, hasField_remapLegacy_ne fields k h]
  · simp [hc, hasField_delField_ne _ _ _ (Ne.symm h), hasField_remapLegacy_ne fields k h]

theorem normalizeCategoryStep_errorDiags (categories : List String) (name : JSValue)
    (fields : Fields) :
    errorDiags (normalizeCategoryStep categories name fields).1 = [] := by
  unfold normalizeCategoryStep
  cases hc : (hasField (remapLegacyCategory fields) "category" &&
      !(categories.any (fun slug => jsStrictEqStr (getField (remapLegacyCategory fields) "category") slug)))
  · simp [hc, errorDiags]
  · simp [hc, errorDiags]

theorem checkTitleIcon_missing_title (name : JSValue) (warns : List Diag) (fields2 : Fields)
    (h : (hasField fields2 "title" && !(jsStrictEqStr (getField fields2 "title") "")) = false) :
    checkTitleIcon name warns fields2 = (warns ++ [Diag.error (missingTitleMsg name)], none) := by
  unfold checkTitleIcon
  cases h1 : hasField fields2 "title" <;>
    cases h2 : jsStrictEqStr (getField fields2 "title") "" <;>
    simp_all

theorem checkTitleIcon_title_not_string (name : JSValue) (warns : List Diag) (fields2 : Fields)
    (hpres : (hasField fields2 "title" && !(jsStrictEqStr (getField fields2 "title") "")) = true)
    (hstr : (jsTypeof (getField fields2 "title") == "string") = false) :
    checkTitleIcon name warns fields2 = (warns ++ [Diag.error titleStringMsg], none) := by
  unfold checkTitleIcon
  simp only [Bool.and_eq_true, Bool.not_eq_true'] at hpres
  simp [hpres.1, hpres.2, bne, hstr]

theorem checkTitleIcon_bad_icon (name : JSValue) (warns : List Diag) (fields2 : Fields)
    (hpres : (hasField fields2 "title" && !(jsStrictEqStr (getField fields2 "title") "")) = true)
    (hstr : (jsTypeof (getField fields2 "title") == "string") = true)
    (hicon : isValidIcon (jsGet (normalizeIconObject (getField fields2 "icon")) "src") = false) :
    checkTitleIcon name warns fields2 = (warns ++ [Diag.error invalidIconMsg], none) := by
  unfold checkTitleIcon
  simp only [Bool.and_eq_true, Bool.not_eq_true'] at hpres
  simp [hpres.1, hpres.2, bne, hstr, getField_setField_self, hicon]

theorem checkTitleIcon_accept (name : JSValue) (warns : List Diag) (fields2 : Fields)
    (hpres : (hasField fields2 "title" && !(jsStrictEqStr (getField fields2 "title") "")) = true)
    (hstr : (jsTypeof (getField fields2 "title") == "string") = true)
    (hicon : isValidIcon (jsGet (normalizeIconObject (getField fields2 "icon")) "src") = true) :
    checkTitleIcon name warns fields2 =
      (warns, some (JSValue.obj (setField fields2 "icon"
        (normalizeIconObject (getField fields2 "icon"))))) := by
  unfold checkTitleIcon
  simp only [Bool.and_eq_true, Bool.not_eq_true'] at hpres
  simp [hpres.1, hpres.2, bne, hstr, getField_setField_self, hicon]

theorem validateSettings_none_of_not_save (categories : List String) (name v : JSValue)
    (h : saveOk v = false) : (validateSettings categories name v).2 = none := by
  cases v with
  | obj fields =>
    unfold saveOk jsGet at h
    simp [validateSettings, h]
  | null => rfl
  | undefined => rfl
  | bool b => rfl
  | num n => rfl
  | str s => rfl
  | func i => rfl
  | arr es => rfl

theorem saveOk_setProp_deprecated (settings mapped : JSValue) :
    saveOk (setProp settings "deprecated" mapped) = saveOk settings := by
  cases settings with
  | obj fields =>
    simp only [setProp, saveOk, jsGet]
    rw [getField_setField_ne fields "deprecated" "save" mapped (by decide)]
  | null => rfl
  | undefined => rfl
  | bool b => rfl
  | num n => rfl
  | str s => rfl
  | func i => rfl
  | arr es => rfl

theorem exceptMapM_forall2 (g : JSValue → Except JsError JSValue) :
    ∀ (es l : List JSValue), exceptMapM g es = .ok l →
      List.Forall₂ (fun d e => g d = .ok e) es l := by
  intro es
  induction es with
  | nil =>
    intro l h
    simp only [exceptMapM] at h
    cases h
    exact List.Forall₂.nil
  | cons d rest ih =>
    intro l h
    simp only [exceptMapM] at h
    cases hg : g d with
    | error e => rw [hg] at h; cases h
    | ok e =>
      rw [hg] at h
      cases hrest : exceptMapM g rest with
      | error e2 => rw [hrest] at h; cases h
      | ok l2 =>
        rw [hrest] at h
        cases h
        exact List.Forall₂.cons hg (ih l2 hrest)

theorem exceptMapM_isOk (g : JSValue → Except JsError JSValue) (es : List JSValue)
    (h : ∀ d ∈ es, ∃ e, g d = .ok e) :
    ∃ l, exceptMapM g es = .ok l := by
  induction es with
  | nil => exact ⟨[], rfl⟩
  | cons d rest ih =>
    obtain ⟨e, he⟩ := h d (by simp)
    obtain ⟨l, hl⟩ := ih (fun x hx => h x (by simp [hx]))
    exact ⟨e :: l, by simp [exceptMapM, he, hl]⟩

theorem exceptMapM_congr (g₁ g₂ : JSValue → Except JsError JSValue) (es : List JSValue)
    (h : ∀ d ∈ es, g₁ d = g₂ d) :
    exceptMapM g₁ es = exceptMapM g₂ es := by
  induction es with
  | nil => rfl
  | cons d rest ih =>
    simp only [exceptMapM, h d (by simp), ih (fun x hx => h x (by simp [hx]))]

theorem hasField_omitFields_mem (f : Fields) (keys : List String) (k : String)
    (h : containsStr keys k = true) :
    hasField (omitFields f keys) k = false := by
  induction f with
  | nil => rfl
  | cons a rest ih =>
    obtain ⟨a1, a2⟩ := a
    cases hc : (containsStr keys a1)
    · have hak : (a1 == k) = false := by
        cases hek : (a1 == k)
        · rfl
        · rw [beq_iff_eq] at hek
          subst hek
          rw [h] at hc
          cases hc
      simp [omitFields, hc, hasField, hak, ih]
    · simp [omitFields, hc, ih]

theorem hasField_omitFields_false (f : Fields) (keys : List String) (k : String)
    (h : hasField f k = false) :
    hasField (omitFields f keys) k = false := by
  induction f with
  | nil => rfl
  | cons a rest ih =>
    obtain ⟨a1, a2⟩ := a
    cases ha : (a1 == k)
    · simp only [hasField, ha, Bool.false_or] at h
      cases hc : (containsStr keys a1)
      · simp [omitFields, hc, hasField, ha, ih h]
      · simp [omitFields, hc, ih h]
    · simp [hasField, ha] at h

theorem hasField_foldl_setField (l : Fields) (k : String) :
    ∀ acc : Fields, hasField (l.foldl (fun a p => setField a p.1 p.2) acc) k =
      (hasField acc k || l.any (fun p => p.1 == k)) := by
  induction l with
  | nil =>
    intro acc
    simp
  | cons a rest ih =>
    intro acc
    obtain ⟨a1, a2⟩ := a
    simp only [List.foldl_cons, List.any_cons]
    rw [ih (setField acc a1 a2), hasField_setField]
    cases h1 : (a1 == k) <;> simp [Bool.or_assoc, Bool.or_comm]

theorem hasField_fromEntries (l : Fields) (k : String) :
    hasField (fromEntries l) k = l.any (fun p => p.1 == k) := by
  unfold fromEntries
  rw [hasField_foldl_setField]
  simp [hasField]

theorem hasField_mergeBase (bt : Fields) (d : JSValue) (k : String) :
    hasField (mergeBase bt d) k =
      (hasField (omitFields bt DEPRECATED_ENTRY_KEYS) k ||
        (spreadFields d).any (fun p => p.1 == k)) := by
  unfold mergeBase
  rw [hasField_foldl_setField]

theorem getProp_eq_jsGet (v : JSValue) (k : String) (h : isNullish v = false) :
    getProp v k = Except.ok (jsGet v k) := by
  cases v <;> simp [getProp, jsGet, isNullish] at h ⊢

theorem containsStr_iff_mem (l : List String) (k : String) :
    containsStr l k = true ↔ k ∈ l := by
  induction l with
  | nil => simp [containsStr]
  | cons s rest ih =>
    simp only [containsStr, Bool.or_eq_true, List.mem_cons, ih, beq_iff_eq]
    constructor
    · rintro (h | h)
      · exact Or.inl h.symm
      · exact Or.inr h
    · rintro (h | h)
      · exact Or.inl h.symm
      · exact Or.inr h

theorem getProp_ok_inv (v : JSValue) (k : String) (x : JSValue)
    (h : getProp v k = .ok x) :
    x = jsGet v k ∧ isNullish v = false := by
  cases v with
  | null => simp [getProp] at h
  | undefined => simp [getProp] at h
  | obj f =>
    simp only [getProp, Except.ok.injEq] at h
    exact ⟨h.symm, rfl⟩
  | bool b =>
    simp only [getProp, Except.ok.injEq] at h
    exact ⟨h.symm, rfl⟩
  | num n =>
    simp only [getProp, Except.ok.injEq] at h
    exact ⟨h.symm, rfl⟩
  | str s =>
    simp only [getProp, Except.ok.injEq] at h
    exact ⟨h.symm, rfl⟩
  | func i =>
    simp only [getProp, Except.ok.injEq] at h
    exact ⟨h.symm, rfl⟩
  | arr es =>
    simp only [getProp, Except.ok.injEq] at h
    exact ⟨h.symm, rfl⟩

theorem jsArrayMapM_ok_inv (g : JSValue → Except JsError JSValue) (v m : JSValue)
    (h : jsArrayMapM g v = .ok m) :
    ∃ es l, v = JSValue.arr es ∧ exceptMapM g es = .ok l ∧ m = JSValue.arr l := by
  cases v with
  | arr es =>
    simp only [jsArrayMapM] at h
    cases hm : exceptMapM g es with
    | error e => rw [hm] at h; cases h
    | ok l =>
      rw [hm] at h
      cases h
      exact ⟨es, l, rfl, hm, rfl⟩
  | null => simp [jsArrayMapM] at h
  | undefined => simp [jsArrayMapM] at h
  | bool b => simp [jsArrayMapM] at h
  | num n => simp [jsArrayMapM] at h
  | str s => simp [jsArrayMapM] at h
  | func i => simp [jsArrayMapM] at h
  | obj f => simp [jsArrayMapM] at h

theorem deprecatedStep_ok_inv (applyFilters : JSValue → JSValue → JSValue → JSValue)
    (blockType : Fields) (name settings settings1 : JSValue)
    (h : deprecatedStep applyFilters blockType name settings = .ok settings1) :
    settings1 = settings ∨
      ∃ mapped, settings1 = setProp settings "deprecated" (JSValue.arr mapped) := by
  cases hd : getProp settings "deprecated" with
  | error e =>
    have hcontra : deprecatedStep applyFilters blockType name settings = .error e := by
      simp [deprecatedStep, hd]
    rw [hcontra] at h
    cases h
  | ok depr =>
    by_cases htr : truthy depr = true
    · cases hm : jsArrayMapM (processDeprecatedEntry applyFilters blockType name) depr with
      | error e =>
        have hcontra : deprecatedStep applyFilters blockType name settings = .error e := by
          simp [deprecatedStep, hd, htr, hm]
        rw [hcontra] at h
        cases h
      | ok mapped =>
        have hval : deprecatedStep applyFilters blockType name settings =
            .ok (setProp settings "deprecated" mapped) := by
          simp [deprecatedStep, hd, htr, hm]
        rw [hval] at h
        cases h
        obtain ⟨es, l, hv, hml, harr⟩ := jsArrayMapM_ok_inv _ _ _ hm
        subst harr
        exact Or.inr ⟨l, rfl⟩
    · have hval : deprecatedStep applyFilters blockType name settings = .ok settings := by
        simp [deprecatedStep, hd, htr]
      rw [hval] at h
      cases h
      exact Or.inl rfl

theorem processBlockType_ok_inv
    (applyFilters : JSValue → JSValue → JSValue → JSValue)
    (categories : List String) (blockType : Fields) (r : Option JSValue)
    (h : (processBlockType applyFilters categories blockType).2 = .ok r) :
    ∃ settings1,
      deprecatedStep applyFilters blockType (getField blockType "name")
        (settingsOf applyFilters blockType) = .ok settings1 ∧
      processBlockType applyFilters categories blockType =
        (descDiagsOf (settingsOf applyFilters blockType) ++
          (validateSettings categories (getField blockType "name") settings1).1,
         .ok (validateSettings categories (getField blockType "name") settings1).2) := by
  cases hd : getProp (settingsOf applyFilters blockType) "description" with
  | error e =>
    have hcontra : (processBlockType applyFilters categories blockType).2 = .error e := by
      simp [processBlockType, hd]
    rw [hcontra] at h
    cases h
  | ok desc =>
    cases hs : deprecatedStep applyFilters blockType (getField blockType "name")
        (settingsOf applyFilters blockType) with
    | error e =>
      have hcontra : (processBlockType applyFilters categories blockType).2 = .error e := by
        simp [processBlockType, hd, hs]
      rw [hcontra] at h
      cases h
    | ok settings1 =>
      refine ⟨settings1, rfl, ?_⟩
      obtain ⟨hdesc, hnn⟩ := getProp_ok_inv _ _ _ hd
      subst hdesc
      simp [processBlockType, hd, hs, descDiagsOf]

theorem errorDiags_append (a b : List Diag) :
    errorDiags (a ++ b) = errorDiags a ++ errorDiags b := by
  simp [errorDiags, List.filter_append]

theorem warnDiags_append (a b : List Diag) :
    warnDiags (a ++ b) = warnDiags a ++ warnDiags b := by
  simp [warnDiags, List.filter_append]

theorem errorDiags_descDiagsOf (settings : JSValue) :
    errorDiags (descDiagsOf settings) = [] := by
  unfold descDiagsOf
  cases h : (truthy (jsGet settings "description") &&
      jsTypeof (jsGet settings "description") != "string") <;> simp [h, errorDiags]

theorem warnDiags_descDiagsOf (settings : JSValue) :
    warnDiags (descDiagsOf settings) = [] := by
  unfold descDiagsOf
  cases h : (truthy (jsGet settings "description") &&
      jsTypeof (jsGet settings "description") != "string") <;> simp [h, warnDiags]

theorem bool_not_false {b : Bool} (h : (!b) = false) : b = true := by
  cases b
  · simp at h
  · rfl

theorem bool_not_true {b : Bool} (h : (!b) = true) : b = false := by
  cases b
  · rfl
  · simp at h

/-- C1: for every candidate settings value produced by the registration filter
chain, validation performs its checks in the fixed order plain-object, `save`
callable, `edit` callable when present, title present and non-empty, title of
string type, icon validity — short-circuiting at the first failure with no
returned value plus exactly one error diagnostic (with the stated reasons),
and accepting (some value, no error diagnostic) a candidate passing all
checks. -/
theorem claim_C1 (categories : List String) (name v : JSValue) :
    (isPlainObject v = false →
      validateSettings categories name v = ([Diag.error invalidSettingsMsg], none)) ∧
    (isPlainObject v = true → saveOk v = false →
      validateSettings categories name v = ([Diag.error saveErrorMsg], none)) ∧
    (isPlainObject v = true → saveOk v = true → editOk v = false →
      validateSettings categories name v = ([Diag.error editErrorMsg], none)) ∧
    (isPlainObject v = true → saveOk v = true → editOk v = true →
      titlePresentOk v = false →
      (validateSettings categories name v).2 = none ∧
      errorDiags (validateSettings categories name v).1 =
        [Diag.error (missingTitleMsg name)]) ∧
    (isPlainObject v = true → saveOk v = true → editOk v = true →
      titlePresentOk v = true → titleStringOk v = false →
      (validateSettings categories name v).2 = none ∧
      errorDiags (validateSettings categories name v).1 = [Diag.error titleStringMsg]) ∧
    (isPlainObject v = true → saveOk v = true → editOk v = true →
      titlePresentOk v = true → titleStringOk v = true → iconOk v = false →
      (validateSettings categories name v).2 = none ∧
      errorDiags (validateSettings categories name v).1 = [Diag.error invalidIconMsg]) ∧
    (isPlainObject v = true → saveOk v = true → editOk v = true →
      titlePresentOk v = true → titleStringOk v = true → iconOk v = true →
      (∃ w, (validateSettings categories name v).2 = some w) ∧
      errorDiags (validateSettings categories name v).1 = []) := by
  cases v with
  | null =>
    refine ⟨fun _ => rfl, ?_, ?_, ?_, ?_, ?_, ?_⟩ <;>
      exact fun h => by simp [isPlainObject] at h
  | undefined =>
    refine ⟨fun _ => rfl, ?_, ?_, ?_, ?_, ?_, ?_⟩ <;>
      exact fun h => by simp [isPlainObject] at h
  | bool b =>
    refine ⟨fun _ => rfl, ?_, ?_, ?_, ?_, ?_, ?_⟩ <;>
      exact fun h => by simp [isPlainObject] at h
  | num n =>
    refine ⟨fun _ => rfl, ?_, ?_, ?_, ?_, ?_, ?_⟩ <;>
      exact fun h => by simp [isPlainObject] at h
  | str s =>
    refine ⟨fun _ => rfl, ?_, ?_, ?_, ?_, ?_, ?_⟩ <;>
      exact fun h => by simp [isPlainObject] at h
  | func i =>
    refine ⟨fun _ => rfl, ?_, ?_, ?_, ?_, ?_, ?_⟩ <;>
      exact fun h => by simp [isPlainObject] at h
  | arr es =>
    refine ⟨fun _ => rfl, ?_, ?_, ?_, ?_, ?_, ?_⟩ <;>
      exact fun h => by simp [isPlainObject] at h
  | obj fields =>
    have hpres_t : hasField (normalizeCategoryStep categories name fields).2 "title" =
        hasField fields "title" :=
      normalizeCategoryStep_hasField_ne categories name fields "title" (by decide)
    have hget_t : getField (normalizeCategoryStep categories name fields).2 "title" =
        getField fields "title" :=
      normalizeCategoryStep_getField_ne categories name fields "title" (by decide)
    have hget_i : getField (normalizeCategoryStep categories name fields).2 "icon" =
        getField fields "icon" :=
      normalizeCategoryStep_getField_ne categories name fields "icon" (by decide)
    refine ⟨fun h => by simp [isPlainObject] at h, ?_, ?_, ?_, ?_, ?_, ?_⟩
    · intro _ h2
      have hsave : isFunction (getField fields "save") = false := h2
      simp [validateSettings, hsave]
    · intro _ h2 h3
      have hsave : isFunction (getField fields "save") = true := h2
      have hX : (hasField fields "edit" && !(isFunction (getField fields "edit"))) = true :=
        bool_not_false h3
      simp [validateSettings, hsave, hX]
    · intro _ h2 h3 h4
      have hsave : isFunction (getField fields "save") = true := h2
      have hX : (hasField fields "edit" && !(isFunction (getField fields "edit"))) = false :=
        bool_not_true h3
      have h4x : (hasField fields "title" &&
          !(jsStrictEqStr (getField fields "title") "")) = false := h4
      have hval : validateSettings categories name (JSValue.obj fields) =
          checkTitleIcon name (normalizeCategoryStep categories name fields).1
            (normalizeCategoryStep categories name fields).2 := by
        simp [validateSettings, hsave, hX]
      have hstep := checkTitleIcon_missing_title name
        (normalizeCategoryStep categories name fields).1
        (normalizeCategoryStep categories name fields).2
        (by rw [hpres_t, hget_t]; exact h4x)
      rw [hval, hstep]
      refine ⟨rfl, ?_⟩
      show errorDiags ((normalizeCategoryStep categories name fields).1 ++
        [Diag.error (missingTitleMsg name)]) = [Diag.error (missingTitleMsg name)]
      rw [errorDiags_append, normalizeCategoryStep_errorDiags]
      rfl
    · intro _ h2 h3 h4 h5
      have hsave : isFunction (getField fields "save") = true := h2
      have hX : (hasField fields "edit" && !(isFunction (getField fields "edit"))) = false :=
        bool_not_true h3
      have h4x : (hasField fields "title" &&
          !(jsStrictEqStr (getField fields "title") "")) = true := h4
      have h5x : (jsTypeof (getField fields "title") == "string") = false := h5
      have hval : validateSettings categories name (JSValue.obj fields) =
          checkTitleIcon name (normalizeCategoryStep categories name fields).1
            (normalizeCategoryStep categories name fields).2 := by
        simp [validateSettings, hsave, hX]
      have hstep := checkTitleIcon_title_not_string name
        (normalizeCategoryStep categories name fields).1
        (normalizeCategoryStep categories name fields).2
        (by rw [hpres_t, hget_t]; exact h4x)
        (by rw [hget_t]; exact h5x)
      rw [hval, hstep]
      refine ⟨rfl, ?_⟩
      show errorDiags ((normalizeCategoryStep categories name fields).1 ++
        [Diag.error titleStringMsg]) = [Diag.error titleStringMsg]
      rw [errorDiags_append, normalizeCategoryStep_errorDiags]
      rfl
    · intro _ h2 h3 h4 h5 h6
      have hsave : isFunction (getField fields "save") = true := h2
      have hX : (hasField fields "edit" && !(isFunction (getField fields "edit"))) = false :=
        bool_not_true h3
      have h4x : (hasField fields "title" &&
          !(jsStrictEqStr (getField fields "title") "")) = true := h4
      have h5x : (jsTypeof (getField fields "title") == "string") = true := h5
      have h6x : isValidIcon
          (jsGet (normalizeIconObject (getField fields "icon")) "src") = false := h6
      have hval : validateSettings categories name (JSValue.obj fields) =
          checkTitleIcon name (normalizeCategoryStep categories name fields).1
            (normalizeCategoryStep categories name fields).2 := by
        simp [validateSettings, hsave, hX]
      have hstep := checkTitleIcon_bad_icon name
        (normalizeCategoryStep categories name fields).1
        (normalizeCategoryStep categories name fields).2
        (by rw [hpres_t, hget_t]; exact h4x)
        (by rw [hget_t]; exact h5x)
        (by rw [hget_i]; exact h6x)
      rw [hval, hstep]
      refine ⟨rfl, ?_⟩
      show errorDiags ((normalizeCategoryStep categories name fields).1 ++
        [Diag.error invalidIconMsg]) = [Diag.error invalidIconMsg]
      rw [errorDiags_append, normalizeCategoryStep_errorDiags]
      rfl
    · intro _ h2 h3 h4 h5 h6
      have hsave : isFunction (getField fields "save") = true := h2
      have hX : (hasField fields "edit" && !(isFunction (getField fields "edit"))) = false :=
        bool_not_true h3
      have h4x : (hasField fields "title" &&
          !(jsStrictEqStr (getField fields "title") "")) = true := h4
      have h5x : (jsTypeof (getField fields "title") == "string") = true := h5
      have h6x : isValidIcon
          (jsGet (normalizeIconObject (getField fields "icon")) "src") = true := h6
      have hval : validateSettings categories name (JSValue.obj fields) =
          checkTitleIcon name (normalizeCategoryStep categories name fields).1
            (normalizeCategoryStep categories name fields).2 := by
        simp [validateSettings, hsave, hX]
      have hstep := checkTitleIcon_accept name
        (normalizeCategoryStep categories name fields).1
        (normalizeCategoryStep categories name fields).2
        (by rw [hpres_t, hget_t]; exact h4x)
        (by rw [hget_t]; exact h5x)
        (by rw [hget_i]; exact h6x)
      rw [hval, hstep]
      refine ⟨⟨_, rfl⟩, ?_⟩
      exact normalizeCategoryStep_errorDiags categories name fields

/-- Witness for C1 at concrete inputs: a candidate whose `save` is the number 1
is rejected with exactly the save diagnostic, and a fully well-formed candidate
is accepted with no error diagnostic. -/
theorem claim_C1_witness :
    (validateSettings [] (JSValue.str "a/b") (JSValue.obj [("save", JSValue.num 1)]) =
      ([Diag.error saveErrorMsg], none)) ∧
    ((∃ w, (validateSettings ["text"] (JSValue.str "a/b")
        (JSValue.obj [("name", JSValue.str "a/b"), ("save", JSValue.func 0),
          ("title", JSValue.str "Test"), ("icon", JSValue.str "smiley")])).2 = some w) ∧
      errorDiags (validateSettings ["text"] (JSValue.str "a/b")
        (JSValue.obj [("name", JSValue.str "a/b"), ("save", JSValue.func 0),
          ("title", JSValue.str "Test"), ("icon", JSValue.str "smiley")])).1 = []) :=
  ⟨(claim_C1 [] (JSValue.str "a/b") (JSValue.obj [("save", JSValue.num 1)])).2.1
      (by decide) (by decide),
   (claim_C1 ["text"] (JSValue.str "a/b")
      (JSValue.obj [("name", JSValue.str "a/b"), ("save", JSValue.func 0),
        ("title", JSValue.str "Test"), ("icon", JSValue.str "smiley")])).2.2.2.2.2.2
      (by decide) (by decide) (by decide) (by decide) (by decide) (by decide)⟩

theorem validateSettings_save_reject (categories : List String) (name v : JSValue)
    (hobj : isPlainObject v = true) (hsave : saveOk v = false) :
    validateSettings categories name v = ([Diag.error saveErrorMsg], none) := by
  cases v with
  | obj fields =>
    have h : isFunction (getField fields "save") = false := hsave
    simp [validateSettings, h]
  | null => simp [isPlainObject] at hobj
  | undefined => simp [isPlainObject] at hobj
  | bool b => simp [isPlainObject] at hobj
  | num n => simp [isPlainObject] at hobj
  | str s => simp [isPlainObject] at hobj
  | func i => simp [isPlainObject] at hobj
  | arr es => simp [isPlainObject] at hobj

theorem isPlainObject_setProp (v : JSValue) (k : String) (x : JSValue) :
    isPlainObject (setProp v k x) = isPlainObject v := by
  cases v <;> rfl

/-- C2: for every candidate whose post-filter settings lack a callable `save`,
processBlockType never returns a processed definition (any non-fault run
returns no value), __experimentalRegisterBlockType dispatches only the
ADD_UNPROCESSED_BLOCK_TYPE action — never ADD_BLOCK_TYPES — and, when the
settings are a plain object and processing completes, the one error
diagnostic emitted is the save diagnostic. -/
theorem claim_C2 (applyFilters : JSValue → JSValue → JSValue → JSValue)
    (categories : List String) (blockType : Fields)
    (hsave : saveOk (settingsOf applyFilters blockType) = false) :
    (∀ r, (processBlockType applyFilters categories blockType).2 = .ok r → r = none) ∧
    (__experimentalRegisterBlockType applyFilters categories blockType).1 =
      [StoreAction.addUnprocessedBlockType blockType] ∧
    (isPlainObject (settingsOf applyFilters blockType) = true →
      ∀ r diags, processBlockType applyFilters categories blockType = (diags, .ok r) →
        errorDiags diags = [Diag.error saveErrorMsg]) := by
  have hsave1 : ∀ s1, deprecatedStep applyFilters blockType (getField blockType "name")
      (settingsOf applyFilters blockType) = .ok s1 → saveOk s1 = false := by
    intro s1 hs
    rcases deprecatedStep_ok_inv _ _ _ _ _ hs with h | ⟨mapped, h⟩
    · rw [h]; exact hsave
    · rw [h, saveOk_setProp_deprecated]; exact hsave
  have hA : ∀ r, (processBlockType applyFilters categories blockType).2 = .ok r →
      r = none := by
    intro r h
    obtain ⟨s1, hs, heq⟩ := processBlockType_ok_inv _ _ _ _ h
    rw [heq] at h
    have hr : (validateSettings categories (getField blockType "name") s1).2 = r :=
      Except.ok.inj h
    rw [← hr]
    exact validateSettings_none_of_not_save _ _ _ (hsave1 s1 hs)
  refine ⟨hA, ?_, ?_⟩
  · simp only [__experimentalRegisterBlockType]
    cases hp : (processBlockType applyFilters categories blockType).2 with
    | error e => rfl
    | ok r =>
      cases r with
      | none => rfl
      | some s => exact Option.noConfusion (hA (some s) hp)
  · intro hobj r diags hproc
    have hp2 : (processBlockType applyFilters categories blockType).2 = .ok r := by
      rw [hproc]
    obtain ⟨s1, hs, heq⟩ := processBlockType_ok_inv _ _ _ r hp2
    have hobj1 : isPlainObject s1 = true := by
      rcases deprecatedStep_ok_inv _ _ _ _ _ hs with h | ⟨mapped, h⟩
      · rw [h]; exact hobj
      · rw [h, isPlainObject_setProp]; exact hobj
    have hvs : validateSettings categories (getField blockType "name") s1 =
        ([Diag.error saveErrorMsg], none) :=
      validateSettings_save_reject _ _ _ hobj1 (hsave1 s1 hs)
    rw [heq] at hproc
    have hdiags : diags = descDiagsOf (settingsOf applyFilters blockType) ++
        (validateSettings categories (getField blockType "name") s1).1 :=
      (congrArg Prod.fst hproc).symm
    rw [hdiags, hvs, errorDiags_append, errorDiags_descDiagsOf]
    rfl

/-- Witness for C2: a concrete filter rewriting `save` to a number makes
registration dispatch only the unprocessed-candidate action, with the save
diagnostic as the only error. -/
theorem claim_C2_witness :
    (∀ r, (processBlockType
        (fun v _ _ => setProp v "save" (JSValue.num 3)) []
        [("name", JSValue.str "a/b"), ("save", JSValue.func 0),
         ("title", JSValue.str "T")]).2 = .ok r → r = none) ∧
    (__experimentalRegisterBlockType
        (fun v _ _ => setProp v "save" (JSValue.num 3)) []
        [("name", JSValue.str "a/b"), ("save", JSValue.func 0),
         ("title", JSValue.str "T")]).1 =
      [StoreAction.addUnprocessedBlockType
        [("name", JSValue.str "a/b"), ("save", JSValue.func 0),
         ("title", JSValue.str "T")]] :=
  ⟨(claim_C2 (fun v _ _ => setProp v "save" (JSValue.num 3)) []
      [("name", JSValue.str "a/b"), ("save", JSValue.func 0),
       ("title", JSValue.str "T")] (by decide)).1,
   (claim_C2 (fun v _ _ => setProp v "save" (JSValue.num 3)) []
      [("name", JSValue.str "a/b"), ("save", JSValue.func 0),
       ("title", JSValue.str "T")] (by decide)).2.1⟩

theorem jsObjectEntries_ok_of_not_nullish (v : JSValue) (h : isNullish v = false) :
    ∃ ents, jsObjectEntries v = .ok ents := by
  cases v with
  | null => simp [isNullish] at h
  | undefined => simp [isNullish] at h
  | obj f => exact ⟨f, rfl⟩
  | arr es => exact ⟨_, rfl⟩
  | str s => exact ⟨_, rfl⟩
  | bool b => exact ⟨[], rfl⟩
  | num n => exact ⟨[], rfl⟩
  | func i => exact ⟨[], rfl⟩

theorem processDeprecatedEntry_ok (applyFilters : JSValue → JSValue → JSValue → JSValue)
    (blockType : Fields) (name d : JSValue)
    (h : isNullish (applyFilters (JSValue.obj (mergeBase blockType d)) name d) = false) :
    ∃ e, processDeprecatedEntry applyFilters blockType name d = .ok e := by
  unfold processDeprecatedEntry
  obtain ⟨ents, hents⟩ := jsObjectEntries_ok_of_not_nullish _ h
  rw [hents]
  exact ⟨_, rfl⟩

theorem deprecatedStep_ok (applyFilters : JSValue → JSValue → JSValue → JSValue)
    (blockType : Fields) (name settings : JSValue)
    (h1 : isNullish settings = false)
    (h2 : truthy (jsGet settings "deprecated") = true →
      ∃ es, jsGet settings "deprecated" = JSValue.arr es ∧
        ∀ d ∈ es, isNullish (applyFilters (JSValue.obj (mergeBase blockType d)) name d) = false) :
    ∃ s1, deprecatedStep applyFilters blockType name settings = .ok s1 := by
  simp only [deprecatedStep, getProp_eq_jsGet settings "deprecated" h1]
  by_cases htr : truthy (jsGet settings "deprecated") = true
  · obtain ⟨es, hes, hall⟩ := h2 htr
    rw [hes] at htr ⊢
    obtain ⟨l, hl⟩ := exceptMapM_isOk
      (processDeprecatedEntry applyFilters blockType name) es
      (fun d hd => processDeprecatedEntry_ok applyFilters blockType name d (hall d hd))
    simp [htr, jsArrayMapM, hl]
  · simp [htr]

/-- Counterexample to C3 as stated: when the filter chain returns `null`, the
first property read of the filtered settings (`settings.description`, line 76
of `actions.js`) throws a TypeError before the plain-object check can reject,
so processBlockType propagates a fault to its caller instead of terminating
normally with a diagnostic. -/
theorem claim_C3_counterexample :
    isFaulted (processBlockType (fun _ _ _ => JSValue.null) []
      [("name", JSValue.str "a/b")]).2 = true := by
  rfl

/-- C3 amended: processBlockType terminates normally (returns rather than
throwing) for every filter result that is not `null` or `undefined` and whose
`deprecated` property, when truthy, is an array whose per-entry filter results
are themselves not `null` or `undefined`; outside this domain the property
reads and method calls of lines 76-104 throw before any local handling. -/
theorem claim_C3_amended (applyFilters : JSValue → JSValue → JSValue → JSValue)
    (categories : List String) (blockType : Fields)
    (h1 : isNullish (settingsOf applyFilters blockType) = false)
    (h2 : truthy (jsGet (settingsOf applyFilters blockType) "deprecated") = true →
      ∃ es, jsGet (settingsOf applyFilters blockType) "deprecated" = JSValue.arr es ∧
        ∀ d ∈ es, isNullish (applyFilters (JSValue.obj (mergeBase blockType d))
          (getField blockType "name") d) = false) :
    ∃ r, (processBlockType applyFilters categories blockType).2 = .ok r := by
  obtain ⟨s1, hs⟩ :=
    deprecatedStep_ok applyFilters blockType (getField blockType "name") _ h1 h2
  have hdesc := getProp_eq_jsGet (settingsOf applyFilters blockType) "description" h1
  refine ⟨(validateSettings categories (getField blockType "name") s1).2, ?_⟩
  simp [processBlockType, hdesc, hs]

/-- Witness for the amended C3: with the identity filter, a candidate carrying
a one-entry deprecated array processes without a fault. -/
theorem claim_C3_witness :
    ∃ r, (processBlockType (fun v _ _ => v) ["text"]
      [("name", JSValue.str "a/b"), ("save", JSValue.func 0),
       ("title", JSValue.str "T"), ("icon", JSValue.str "smiley"),
       ("deprecated", JSValue.arr [JSValue.obj [("save", JSValue.func 1)]])]).2 =
      .ok r :=
  claim_C3_amended (fun v _ _ => v) ["text"]
    [("name", JSValue.str "a/b"), ("save", JSValue.func 0),
     ("title", JSValue.str "T"), ("icon", JSValue.str "smiley"),
     ("deprecated", JSValue.arr [JSValue.obj [("save", JSValue.func 1)]])]
    (by decide)
    (fun _ => ⟨[JSValue.obj [("save", JSValue.func 1)]], rfl, by
      intro d hd
      simp at hd
      subst hd
      rfl⟩)

theorem checkTitleIcon_fst (name : JSValue) (warns : List Diag) (f2 : Fields) :
    (checkTitleIcon name warns f2).1 = warns ∨
      ∃ m, (checkTitleIcon name warns f2).1 = warns ++ [Diag.error m] := by
  simp only [checkTitleIcon]
  split
  · exact Or.inr ⟨_, rfl⟩
  · split
    · exact Or.inr ⟨_, rfl⟩
    · split
      · exact Or.inr ⟨_, rfl⟩
      · exact Or.inl rfl

theorem warnDiags_checkTitleIcon (name : JSValue) (warns : List Diag) (f2 : Fields) :
    warnDiags (checkTitleIcon name warns f2).1 = warnDiags warns := by
  rcases checkTitleIcon_fst name warns f2 with h | ⟨m, h⟩
  · rw [h]
  · rw [h, warnDiags_append]
    simp [warnDiags]

theorem checkTitleIcon_some_inv (name : JSValue) (warns : List Diag) (f2 : Fields)
    (w : JSValue) (h : (checkTitleIcon name warns f2).2 = some w) :
    w = JSValue.obj (setField f2 "icon" (normalizeIconObject (getField f2 "icon"))) := by
  simp only [checkTitleIcon] at h
  split at h
  · simp at h
  · split at h
    · simp at h
    · split at h
      · simp at h
      · exact (Option.some.inj h).symm

/-- C4: for every candidate reaching the category region (plain object with
callable `save` and valid `edit`) whose category is present but, after legacy
remapping, matches no known slug, validation emits exactly one warning naming
the block and the offending category, any accepted result carries no category
field, and the candidate is still accepted when the remaining title and icon
checks pass. -/
theorem claim_C4 (categories : List String) (name : JSValue) (fields : Fields)
    (hsave : saveOk (JSValue.obj fields) = true)
    (hedit : editOk (JSValue.obj fields) = true)
    (hcat : hasField fields "category" = true)
    (hunknown : categories.any (fun slug =>
      jsStrictEqStr (getField (remapLegacyCategory fields) "category") slug) = false) :
    warnDiags (validateSettings categories name (JSValue.obj fields)).1 =
      [Diag.warn (invalidCategoryWarning name
        (getField (remapLegacyCategory fields) "category"))] ∧
    (∀ w, (validateSettings categories name (JSValue.obj fields)).2 = some w →
      jsHasKey w "category" = false) ∧
    (titlePresentOk (JSValue.obj fields) = true →
      titleStringOk (JSValue.obj fields) = true →
      iconOk (JSValue.obj fields) = true →
      ∃ w, (validateSettings categories name (JSValue.obj fields)).2 = some w) := by
  have hsave1 : isFunction (getField fields "save") = true := hsave
  have hX : (hasField fields "edit" && !(isFunction (getField fields "edit"))) = false :=
    bool_not_true hedit
  have hval : validateSettings categories name (JSValue.obj fields) =
      checkTitleIcon name (normalizeCategoryStep categories name fields).1
        (normalizeCategoryStep categories name fields).2 := by
    simp [validateSettings, hsave1, hX]
  have hcat1 : hasField (remapLegacyCategory fields) "category" = true := by
    rw [hasField_remapLegacy_category]
    exact hcat
  have hcond : (hasField (remapLegacyCategory fields) "category" &&
      !(categories.any (fun slug =>
        jsStrictEqStr (getField (remapLegacyCategory fields) "category") slug))) = true := by
    rw [hcat1, hunknown]
    rfl
  have hncs : normalizeCategoryStep categories name fields =
      ([Diag.warn (invalidCategoryWarning name
          (getField (remapLegacyCategory fields) "category"))],
        delField (remapLegacyCategory fields) "category") := by
    simp only [normalizeCategoryStep]
    rw [if_pos hcond]
  refine ⟨?_, ?_, ?_⟩
  · rw [hval, warnDiags_checkTitleIcon, hncs]
    rfl
  · intro w hw
    rw [hval] at hw
    have hwv := checkTitleIcon_some_inv _ _ _ _ hw
    rw [hwv]
    show hasField (setField (normalizeCategoryStep categories name fields).2 "icon"
      (normalizeIconObject (getField (normalizeCategoryStep categories name fields).2 "icon")))
      "category" = false
    rw [hasField_setField]
    rw [hncs]
    show (hasField (delField (remapLegacyCategory fields) "category") "category" ||
      ("icon" == "category")) = false
    rw [hasField_delField_self]
    rfl
  · intro h4 h5 h6
    have h4x : (hasField fields "title" &&
        !(jsStrictEqStr (getField fields "title") "")) = true := h4
    have h5x : (jsTypeof (getField fields "title") == "string") = true := h5
    have h6x : isValidIcon
        (jsGet (normalizeIconObject (getField fields "icon")) "src") = true := h6
    have hstep := checkTitleIcon_accept name
      (normalizeCategoryStep categories name fields).1
      (normalizeCategoryStep categories name fields).2
      (by rw [normalizeCategoryStep_hasField_ne categories name fields "title" (by decide),
              normalizeCategoryStep_getField_ne categories name fields "title" (by decide)]
          exact h4x)
      (by rw [normalizeCategoryStep_getField_ne categories name fields "title" (by decide)]
          exact h5x)
      (by rw [normalizeCategoryStep_getField_ne categories name fields "icon" (by decide)]
          exact h6x)
    rw [hval, hstep]
    exact ⟨_, rfl⟩

/-- Witness for C4: a candidate registered with the unknown category `bogus`
while only `widgets` is known draws exactly one warning naming block and
category, and is still accepted. -/
theorem claim_C4_witness :
    warnDiags (validateSettings ["widgets"] (JSValue.str "a/b")
      (JSValue.obj [("save", JSValue.func 0), ("title", JSValue.str "T"),
        ("category", JSValue.str "bogus"), ("icon", JSValue.str "smiley")])).1 =
      [Diag.warn (invalidCategoryWarning (JSValue.str "a/b") (JSValue.str "bogus"))] ∧
    ∃ w, (validateSettings ["widgets"] (JSValue.str "a/b")
      (JSValue.obj [("save", JSValue.func 0), ("title", JSValue.str "T"),
        ("category", JSValue.str "bogus"), ("icon", JSValue.str "smiley")])).2 = some w :=
  ⟨(claim_C4 ["widgets"] (JSValue.str "a/b")
      [("save", JSValue.func 0), ("title", JSValue.str "T"),
       ("category", JSValue.str "bogus"), ("icon", JSValue.str "smiley")]
      (by decide) (by decide) (by decide) (by decide)).1,
   (claim_C4 ["widgets"] (JSValue.str "a/b")
      [("save", JSValue.func 0), ("title", JSValue.str "T"),
       ("category", JSValue.str "bogus"), ("icon", JSValue.str "smiley")]
      (by decide) (by decide) (by decide) (by decide)).2.2
      (by decide) (by decide) (by decide)⟩

/-- Counterexample to C5 as stated: a candidate registered with
`category = "common"` is accepted while the known category list is empty, and
its processed result carries no `category` field at all — in particular not
`"text"` — because the remapped slug is stripped as unknown. -/
theorem claim_C5_counterexample :
    (validateSettings [] (JSValue.str "a/b")
      (JSValue.obj [("save", JSValue.func 0), ("title", JSValue.str "T"),
        ("category", JSValue.str "common"), ("icon", JSValue.str "smiley")])).2 =
      some (JSValue.obj [("save", JSValue.func 0), ("title", JSValue.str "T"),
        ("icon", JSValue.obj [("src", JSValue.str "smiley")])]) ∧
    jsHasKey (JSValue.obj [("save", JSValue.func 0), ("title", JSValue.str "T"),
      ("icon", JSValue.obj [("src", JSValue.str "smiley")])]) "category" = false :=
  ⟨rfl, rfl⟩

/-- C5 amended: for every accepted candidate whose category is a legacy slug,
the processed result carries the mapped slug — `common` and `formatting` map
to `text`, `layout` to `design` — provided the mapped slug is among the known
categories (otherwise the category is stripped as unknown); and a candidate
whose string-coerced category is not a legacy slug is left unchanged by the
legacy remapping. -/
theorem claim_C5_amended (categories : List String) (name : JSValue) (fields : Fields)
    (c m : String)
    (hc : getField fields "category" = JSValue.str c)
    (hm : LEGACY_CATEGORY_MAPPING.lookup c = some m)
    (hknown : m ∈ categories) :
    (∀ w, (validateSettings categories name (JSValue.obj fields)).2 = some w →
      jsGet w "category" = JSValue.str m) ∧
    (∀ fields' : Fields, LEGACY_CATEGORY_MAPPING.lookup
        (jsToString (getField fields' "category")) = none →
      remapLegacyCategory fields' = fields') := by
  constructor
  · intro w hw
    cases hsave : isFunction (getField fields "save") with
    | false =>
      have hnone := validateSettings_none_of_not_save categories name
        (JSValue.obj fields) hsave
      rw [hnone] at hw
      cases hw
    | true =>
      cases hX : (hasField fields "edit" && !(isFunction (getField fields "edit"))) with
      | true =>
        have hval : validateSettings categories name (JSValue.obj fields) =
            ([Diag.error editErrorMsg], none) := by
          simp [validateSettings, hsave, hX]
        rw [hval] at hw
        cases hw
      | false =>
        have hval : validateSettings categories name (JSValue.obj fields) =
            checkTitleIcon name (normalizeCategoryStep categories name fields).1
              (normalizeCategoryStep categories name fields).2 := by
          simp [validateSettings, hsave, hX]
        rw [hval] at hw
        have hwv := checkTitleIcon_some_inv _ _ _ _ hw
        have hremap : remapLegacyCategory fields =
            setField fields "category" (JSValue.str m) := by
          unfold remapLegacyCategory
          rw [hc]
          rw [show jsToString (JSValue.str c) = c from rfl, hm]
        have hget1 : getField (remapLegacyCategory fields) "category" = JSValue.str m := by
          rw [hremap, getField_setField_self]
        have hhas1 : hasField (remapLegacyCategory fields) "category" = true := by
          rw [hremap, hasField_setField]
          simp
        have hany : categories.any (fun slug => jsStrictEqStr (JSValue.str m) slug) = true := by
          rw [List.any_eq_true]
          exact ⟨m, hknown, by simp [jsStrictEqStr]⟩
        have hcond : (hasField (remapLegacyCategory fields) "category" &&
            !(categories.any (fun slug =>
              jsStrictEqStr (getField (remapLegacyCategory fields) "category") slug))) =
            false := by
          rw [hhas1, hget1, hany]
          rfl
        have hncs : normalizeCategoryStep categories name fields =
            ([], remapLegacyCategory fields) := by
          simp only [normalizeCategoryStep]
          rw [if_neg (by simp [hcond])]
        rw [hwv]
        show getField (setField (normalizeCategoryStep categories name fields).2 "icon"
          (normalizeIconObject
            (getField (normalizeCategoryStep categories name fields).2 "icon")))
          "category" = JSValue.str m
        rw [getField_setField_ne _ _ _ _ (by decide), hncs]
        exact hget1
  · intro fields' h
    simp [remapLegacyCategory, h]

/-- Witness for the amended C5: with `text` among the known categories, the
candidate registered as `common` is accepted carrying `category = "text"`, and
a non-legacy category is untouched by the remapping. -/
theorem claim_C5_witness :
    jsGet (JSValue.obj [("save", JSValue.func 0), ("title", JSValue.str "T"),
        ("category", JSValue.str "text"),
        ("icon", JSValue.obj [("src", JSValue.str "smiley")])]) "category" =
      JSValue.str "text" ∧
    remapLegacyCategory [("category", JSValue.str "nice")] =
      [("category", JSValue.str "nice")] :=
  ⟨(claim_C5_amended ["text"] (JSValue.str "a/b")
      [("save", JSValue.func 0), ("title", JSValue.str "T"),
       ("category", JSValue.str "common"), ("icon", JSValue.str "smiley")]
      "common" "text" rfl (by decide) (by decide)).1
      (JSValue.obj [("save", JSValue.func 0), ("title", JSValue.str "T"),
        ("category", JSValue.str "text"),
        ("icon", JSValue.obj [("src", JSValue.str "smiley")])]) rfl,
   (claim_C5_amended ["text"] (JSValue.str "a/b")
      [("save", JSValue.func 0), ("title", JSValue.str "T"),
       ("category", JSValue.str "common"), ("icon", JSValue.str "smiley")]
      "common" "text" rfl (by decide) (by decide)).2
      [("category", JSValue.str "nice")] (by decide)⟩

/-- Counterexample to C6 as stated: a candidate with a non-callable `save` and
an unknown category present is rejected with only the save diagnostic and no
warning at all — the category normalizer never ran, so it did not complete
before the validator decided the save rejection. -/
theorem claim_C6_counterexample :
    validateSettings [] (JSValue.str "a/b")
      (JSValue.obj [("save", JSValue.num 5), ("category", JSValue.str "bogus")]) =
      ([Diag.error saveErrorMsg], none) ∧
    warnDiags (validateSettings [] (JSValue.str "a/b")
      (JSValue.obj [("save", JSValue.num 5), ("category", JSValue.str "bogus")])).1 =
      [] :=
  ⟨rfl, rfl⟩

/-- C6 amended: category normalization (legacy remapping and unknown-category
stripping) runs after the plain-object, `save`, and `edit` checks — a save
rejection is decided with no warning emitted even when an unknown category is
present — but before the title and icon checks, whose rejections carry the
category warning; and the absence of a category never causes validation to
fail. -/
theorem claim_C6_amended (categories : List String) (name : JSValue) (fields : Fields) :
    (saveOk (JSValue.obj fields) = false →
      validateSettings categories name (JSValue.obj fields) =
        ([Diag.error saveErrorMsg], none)) ∧
    (saveOk (JSValue.obj fields) = true → editOk (JSValue.obj fields) = true →
      hasField fields "category" = true →
      categories.any (fun slug =>
        jsStrictEqStr (getField (remapLegacyCategory fields) "category") slug) = false →
      titlePresentOk (JSValue.obj fields) = false →
      validateSettings categories name (JSValue.obj fields) =
        ([Diag.warn (invalidCategoryWarning name
            (getField (remapLegacyCategory fields) "category")),
          Diag.error (missingTitleMsg name)], none)) ∧
    (hasField fields "category" = false →
      saveOk (JSValue.obj fields) = true → editOk (JSValue.obj fields) = true →
      titlePresentOk (JSValue.obj fields) = true →
      titleStringOk (JSValue.obj fields) = true → iconOk (JSValue.obj fields) = true →
      ∃ w, (validateSettings categories name (JSValue.obj fields)).2 = some w) := by
  refine ⟨?_, ?_, ?_⟩
  · intro hsave
    exact validateSettings_save_reject categories name (JSValue.obj fields) rfl hsave
  · intro hsave hedit hcat hunknown h4
    have hsave1 : isFunction (getField fields "save") = true := hsave
    have hX : (hasField fields "edit" && !(isFunction (getField fields "edit"))) = false :=
      bool_not_true hedit
    have h4x : (hasField fields "title" &&
        !(jsStrictEqStr (getField fields "title") "")) = false := h4
    have hval : validateSettings categories name (JSValue.obj fields) =
        checkTitleIcon name (normalizeCategoryStep categories name fields).1
          (normalizeCategoryStep categories name fields).2 := by
      simp [validateSettings, hsave1, hX]
    have hcat1 : hasField (remapLegacyCategory fields) "category" = true := by
      rw [hasField_remapLegacy_category]
      exact hcat
    have hcond : (hasField (remapLegacyCategory fields) "category" &&
        !(categories.any (fun slug =>
          jsStrictEqStr (getField (remapLegacyCategory fields) "category") slug))) = true := by
      rw [hcat1, hunknown]
      rfl
    have hncs : normalizeCategoryStep categories name fields =
        ([Diag.warn (invalidCategoryWarning name
            (getField (remapLegacyCategory fields) "category"))],
          delField (remapLegacyCategory fields) "category") := by
      simp only [normalizeCategoryStep]
      rw [if_pos hcond]
    have hstep := checkTitleIcon_missing_title name
      (normalizeCategoryStep categories name fields).1
      (normalizeCategoryStep categories name fields).2
      (by rw [normalizeCategoryStep_hasField_ne categories name fields "title" (by decide),
              normalizeCategoryStep_getField_ne categories name fields "title" (by decide)]
          exact h4x)
    rw [hval, hstep, hncs]
    rfl
  · intro hcat hsave hedit h4 h5 h6
    have hsave1 : isFunction (getField fields "save") = true := hsave
    have hX : (hasField fields "edit" && !(isFunction (getField fields "edit"))) = false :=
      bool_not_true hedit
    have h4x : (hasField fields "title" &&
        !(jsStrictEqStr (getField fields "title") "")) = true := h4
    have h5x : (jsTypeof (getField fields "title") == "string") = true := h5
    have h6x : isValidIcon
        (jsGet (normalizeIconObject (getField fields "icon")) "src") = true := h6
    have hval : validateSettings categories name (JSValue.obj fields) =
        checkTitleIcon name (normalizeCategoryStep categories name fields).1
          (normalizeCategoryStep categories name fields).2 := by
      simp [validateSettings, hsave1, hX]
    have hget0 : getField fields "category" = JSValue.undefined :=
      getField_of_not_hasField _ _ hcat
    have hremap : remapLegacyCategory fields = fields := by
      unfold remapLegacyCategory
      rw [hget0]
      rw [show LEGACY_CATEGORY_MAPPING.lookup (jsToString JSValue.undefined) = none from
        by decide]
    have hcond : (hasField (remapLegacyCategory fields) "category" &&
        !(categories.any (fun slug =>
          jsStrictEqStr (getField (remapLegacyCategory fields) "category") slug))) =
        false := by
      rw [hremap, hcat]
      rfl
    have hncs : normalizeCategoryStep categories name fields = ([], fields) := by
      simp only [normalizeCategoryStep]
      rw [if_neg (by simp [hcond]), hremap]
    rw [hval, hncs]
    have hstep := checkTitleIcon_accept name [] fields h4x h5x h6x
    rw [hstep]
    exact ⟨_, rfl⟩

/-- Witness for the amended C6: a candidate with callable `save`, unknown
category, and no title draws the warning followed by the title rejection; a
candidate without any category passes validation. -/
theorem claim_C6_witness :
    validateSettings [] (JSValue.str "a/b")
      (JSValue.obj [("save", JSValue.func 0), ("category", JSValue.str "bogus")]) =
      ([Diag.warn (invalidCategoryWarning (JSValue.str "a/b") (JSValue.str "bogus")),
        Diag.error (missingTitleMsg (JSValue.str "a/b"))], none) ∧
    (∃ w, (validateSettings [] (JSValue.str "a/b")
      (JSValue.obj [("save", JSValue.func 0), ("title", JSValue.str "T")])).2 = some w) :=
  ⟨(claim_C6_amended [] (JSValue.str "a/b")
      [("save", JSValue.func 0), ("category", JSValue.str "bogus")]).2.1
      (by decide) (by decide) (by decide) (by decide) (by decide),
   (claim_C6_amended [] (JSValue.str "a/b")
      [("save", JSValue.func 0), ("title", JSValue.str "T")]).2.2
      (by decide) (by decide) (by decide) (by decide) (by decide) (by decide)⟩

theorem hasField_eq_any (f : Fields) (k : String) :
    hasField f k = f.any (fun p => p.1 == k) := by
  induction f with
  | nil => rfl
  | cons a rest ih =>
    obtain ⟨a1, a2⟩ := a
    simp [hasField, List.any_cons, ih]

theorem processDeprecatedEntry_ok_keys
    (applyFilters : JSValue → JSValue → JSValue → JSValue)
    (blockType : Fields) (name d e : JSValue)
    (h : processDeprecatedEntry applyFilters blockType name d = .ok e) :
    ∃ ents, jsObjectEntries
        (applyFilters (JSValue.obj (mergeBase blockType d)) name d) = .ok ents ∧
      e = JSValue.obj (fromEntries
        (ents.filter (fun p => containsStr DEPRECATED_ENTRY_KEYS p.1))) := by
  unfold processDeprecatedEntry at h
  cases hents : jsObjectEntries
      (applyFilters (JSValue.obj (mergeBase blockType d)) name d) with
  | error e2 => rw [hents] at h; cases h
  | ok ents =>
    rw [hents] at h
    cases h
    exact ⟨ents, rfl, rfl⟩

theorem hasField_filter_keys (l : Fields) (k : String)
    (h : hasField (fromEntries
      (l.filter (fun p => containsStr DEPRECATED_ENTRY_KEYS p.1))) k = true) :
    containsStr DEPRECATED_ENTRY_KEYS k = true ∧ hasField l k = true := by
  rw [hasField_fromEntries, List.any_eq_true] at h
  obtain ⟨p, hp, hpk⟩ := h
  rw [List.mem_filter] at hp
  have hkeq : p.1 = k := by rwa [beq_iff_eq] at hpk
  constructor
  · rw [← hkeq]
    exact hp.2
  · rw [hasField_eq_any, List.any_eq_true]
    exact ⟨p, hp.1, hpk⟩

/-- C7: deprecation mapping preserves length and entry order (the i-th output
comes from the i-th input), every output entry carries only allowlisted keys,
and — since the merge base omits the allowlisted keys of the live definition —
a deprecation entry that does not redeclare `supports`, processed with no
filter interfering, yields no `supports` key even when the raw definition
declares one. -/
theorem claim_C7 (applyFilters : JSValue → JSValue → JSValue → JSValue)
    (blockType : Fields) (name : JSValue) :
    (∀ es l, exceptMapM (processDeprecatedEntry applyFilters blockType name) es = .ok l →
      l.length = es.length ∧
      List.Forall₂ (fun d e =>
        processDeprecatedEntry applyFilters blockType name d = .ok e) es l) ∧
    (∀ d e, processDeprecatedEntry applyFilters blockType name d = .ok e →
      ∀ k, jsHasKey e k = true → k ∈ DEPRECATED_ENTRY_KEYS) ∧
    (∀ df : Fields, hasField df "supports" = false →
      ∀ e, processDeprecatedEntry (fun v _ _ => v) blockType name (JSValue.obj df) =
        .ok e → jsHasKey e "supports" = false) := by
  refine ⟨?_, ?_, ?_⟩
  · intro es l h
    have hf := exceptMapM_forall2 _ es l h
    exact ⟨hf.length_eq.symm, hf⟩
  · intro d e h k hk
    obtain ⟨ents, hents, he⟩ := processDeprecatedEntry_ok_keys _ _ _ _ _ h
    rw [he] at hk
    have := (hasField_filter_keys ents k hk).1
    exact (containsStr_iff_mem _ _).mp this
  · intro df hdf e h
    obtain ⟨ents, hents, he⟩ := processDeprecatedEntry_ok_keys _ _ _ _ _ h
    have hents' : ents = mergeBase blockType (JSValue.obj df) :=
      (Except.ok.inj hents).symm
    have hmb : hasField (mergeBase blockType (JSValue.obj df)) "supports" = false := by
      rw [hasField_mergeBase]
      rw [hasField_omitFields_mem blockType DEPRECATED_ENTRY_KEYS "supports" (by decide)]
      have : (spreadFields (JSValue.obj df)).any (fun p => p.1 == "supports") =
          hasField df "supports" := by
        rw [show spreadFields (JSValue.obj df) = df from rfl, ← hasField_eq_any]
      rw [this, hdf]
      rfl
    cases hkk : jsHasKey e "supports" with
    | false => rfl
    | true =>
      rw [he] at hkk
      have := (hasField_filter_keys ents "supports" hkk).2
      rw [hents'] at this
      rw [this] at hmb
      cases hmb

/-- Witness for C7: with the identity filter, a one-entry deprecated sequence
maps to a one-entry sequence whose entry keeps only the allowlisted `save`
key, and a deprecation that does not redeclare `supports` yields no
`supports` key even though the raw definition declares one. -/
theorem claim_C7_witness :
    ([JSValue.obj [("save", JSValue.func 1)]].length =
      [JSValue.obj [("save", JSValue.func 1), ("junk", JSValue.num 2)]].length ∧
      List.Forall₂ (fun d e =>
        processDeprecatedEntry (fun v _ _ => v)
          [("name", JSValue.str "a/b"), ("save", JSValue.func 0),
           ("supports", JSValue.obj [("x", JSValue.bool true)])]
          (JSValue.str "a/b") d = .ok e)
        [JSValue.obj [("save", JSValue.func 1), ("junk", JSValue.num 2)]]
        [JSValue.obj [("save", JSValue.func 1)]]) ∧
    jsHasKey (JSValue.obj [("save", JSValue.func 1)]) "supports" = false :=
  ⟨(claim_C7 (fun v _ _ => v)
      [("name", JSValue.str "a/b"), ("save", JSValue.func 0),
       ("supports", JSValue.obj [("x", JSValue.bool true)])]
      (JSValue.str "a/b")).1
      [JSValue.obj [("save", JSValue.func 1), ("junk", JSValue.num 2)]]
      [JSValue.obj [("save", JSValue.func 1)]] rfl,
   (claim_C7 (fun v _ _ => v)
      [("name", JSValue.str "a/b"), ("save", JSValue.func 0),
       ("supports", JSValue.obj [("x", JSValue.bool true)])]
      (JSValue.str "a/b")).2.2
      [("save", JSValue.func 1)] rfl
      (JSValue.obj [("save", JSValue.func 1)]) rfl⟩

/-- C8: for every submitted candidate, __experimentalRegisterBlockType
dispatches ADD_UNPROCESSED_BLOCK_TYPE with the raw candidate as its first
action, unconditionally — also when processing rejects or faults and no
processed definition is stored. -/
theorem claim_C8 (applyFilters : JSValue → JSValue → JSValue → JSValue)
    (categories : List String) (blockType : Fields) :
    ((__experimentalRegisterBlockType applyFilters categories blockType).1).head? =
      some (StoreAction.addUnprocessedBlockType blockType) := by
  simp only [__experimentalRegisterBlockType]
  cases hp : (processBlockType applyFilters categories blockType).2 with
  | error e => rfl
  | ok r =>
    cases r with
    | none => rfl
    | some s => rfl

theorem reapplyCollect_ok (applyFilters : JSValue → JSValue → JSValue → JSValue)
    (categories : List String) :
    ∀ entries : List (String × Fields),
      (∀ p ∈ entries, ∃ r, (processBlockType applyFilters categories p.2).2 = .ok r) →
      (reapplyCollect applyFilters categories entries).2 =
        .ok (entries.filterMap (fun p => acceptedOf applyFilters categories p.2)) := by
  intro entries
  induction entries with
  | nil => intro _; rfl
  | cons p rest ih =>
    intro h
    obtain ⟨p1, p2⟩ := p
    have hrest := ih (fun q hq => h q (List.mem_cons_of_mem _ hq))
    obtain ⟨r, hr⟩ := h (p1, p2) (List.mem_cons_self _ _)
    cases r with
    | none =>
      have hacc : acceptedOf applyFilters categories p2 = none := by
        simp [acceptedOf, hr]
      simp [reapplyCollect, hr, List.filterMap_cons, hacc, hrest]
    | some s =>
      have hacc : acceptedOf applyFilters categories p2 = some s := by
        simp [acceptedOf, hr]
      simp [reapplyCollect, hr, List.filterMap_cons, hacc, hrest]

/-- C9: when every stored raw entry processes without a fault, the
reapply-all-filters thunk collects exactly the accepted results in iteration
order and dispatches them as one batched ADD_BLOCK_TYPES action; rejected
entries are simply omitted, no REMOVE_BLOCK_TYPES is ever dispatched, and
when every entry is rejected no action is dispatched at all. -/
theorem claim_C9 (applyFilters : JSValue → JSValue → JSValue → JSValue)
    (categories : List String) (entries : List (String × Fields))
    (h : ∀ p ∈ entries, ∃ r, (processBlockType applyFilters categories p.2).2 = .ok r) :
    (entries.filterMap (fun p => acceptedOf applyFilters categories p.2) = [] →
      (__experimentalReapplyBlockTypeFilters applyFilters categories entries).1 = []) ∧
    (∀ l, entries.filterMap (fun p => acceptedOf applyFilters categories p.2) = l →
      l ≠ [] →
      (__experimentalReapplyBlockTypeFilters applyFilters categories entries).1 =
        [StoreAction.addBlockTypes l]) ∧
    (∀ ns, StoreAction.removeBlockTypes ns ∉
      (__experimentalReapplyBlockTypeFilters applyFilters categories entries).1) := by
  have hcol := reapplyCollect_ok applyFilters categories entries h
  refine ⟨?_, ?_, ?_⟩
  · intro hemp
    simp only [__experimentalReapplyBlockTypeFilters]
    rw [hcol, hemp]
  · intro l hl hne
    cases l with
    | nil => exact absurd rfl hne
    | cons a t =>
      simp only [__experimentalReapplyBlockTypeFilters]
      rw [hcol, hl]
      rfl
  · intro ns
    cases hL : entries.filterMap (fun p => acceptedOf applyFilters categories p.2) with
    | nil =>
      have hact : (__experimentalReapplyBlockTypeFilters applyFilters
          categories entries).1 = [] := by
        simp only [__experimentalReapplyBlockTypeFilters]
        rw [hcol, hL]
      rw [hact]
      simp
    | cons a t =>
      have hact : (__experimentalReapplyBlockTypeFilters applyFilters
          categories entries).1 = [StoreAction.addBlockTypes (a :: t)] := by
        simp only [__experimentalReapplyBlockTypeFilters]
        rw [hcol, hL]
        rfl
      rw [hact]
      simp

/-- Witness for C9: with the identity filter, a two-entry log whose second
entry lacks a callable save dispatches one batched add containing only the
first entry's processed definition. -/
theorem claim_C9_witness :
    (__experimentalReapplyBlockTypeFilters (fun v _ _ => v) ["text"]
      [("core/test", [("name", JSValue.str "core/test"), ("save", JSValue.func 0),
        ("title", JSValue.str "Test"), ("icon", JSValue.str "smiley")]),
       ("bad", [("save", JSValue.num 1)])]).1 =
      [StoreAction.addBlockTypes
        [JSValue.obj [("name", JSValue.str "core/test"), ("save", JSValue.func 0),
          ("title", JSValue.str "Test"),
          ("icon", JSValue.obj [("src", JSValue.str "smiley")])]]] :=
  (claim_C9 (fun v _ _ => v) ["text"]
    [("core/test", [("name", JSValue.str "core/test"), ("save", JSValue.func 0),
      ("title", JSValue.str "Test"), ("icon", JSValue.str "smiley")]),
     ("bad", [("save", JSValue.num 1)])]
    (by
      intro p hp
      simp only [List.mem_cons, List.mem_singleton] at hp
      rcases hp with h | h | h
      · subst h; exact ⟨_, rfl⟩
      · subst h; exact ⟨_, rfl⟩
      · cases h)).2.1
    [JSValue.obj [("name", JSValue.str "core/test"), ("save", JSValue.func 0),
      ("title", JSValue.str "Test"),
      ("icon", JSValue.obj [("src", JSValue.str "smiley")])]]
    rfl (List.cons_ne_nil _ _)

/-- C10: the merge base of every deprecation entry is built from the raw
pre-filter submission, not from the live-pass filter output: two filter
chains that agree on deprecation contexts (non-null context argument) produce
identical deprecation mappings however much they differ on the live pass, and
a key absent from both the raw definition and the entry is absent from the
merge base. -/
theorem claim_C10 (blockType : Fields) (name : JSValue) :
    (∀ f₁ f₂ : JSValue → JSValue → JSValue → JSValue, ∀ es : List JSValue,
      (∀ v n d, d ≠ JSValue.null → f₁ v n d = f₂ v n d) →
      (∀ d ∈ es, d ≠ JSValue.null) →
      exceptMapM (processDeprecatedEntry f₁ blockType name) es =
        exceptMapM (processDeprecatedEntry f₂ blockType name) es) ∧
    (∀ (d : JSValue) (k : String), hasField blockType k = false →
      hasField (spreadFields d) k = false →
      hasField (mergeBase blockType d) k = false) := by
  constructor
  · intro f₁ f₂ es hagree hnn
    apply exceptMapM_congr
    intro d hd
    unfold processDeprecatedEntry
    rw [hagree _ _ _ (hnn d hd)]
  · intro d k h1 h2
    rw [hasField_mergeBase,
      hasField_omitFields_false blockType DEPRECATED_ENTRY_KEYS k h1,
      ← hasField_eq_any, h2]
    rfl

/-- Witness for C10: a filter that rewrites only the live pass (null context)
leaves the deprecation mapping identical to the identity filter, and the
field it would add to the live definition is absent from the merge base. -/
theorem claim_C10_witness :
    exceptMapM (processDeprecatedEntry
      (fun v _ d => match d with
        | JSValue.null => setProp v "livefield" (JSValue.num 1)
        | _ => v)
      [("name", JSValue.str "a/b"), ("save", JSValue.func 0)] (JSValue.str "a/b"))
      [JSValue.obj [("attributes", JSValue.num 1)]] =
    exceptMapM (processDeprecatedEntry (fun v _ _ => v)
      [("name", JSValue.str "a/b"), ("save", JSValue.func 0)] (JSValue.str "a/b"))
      [JSValue.obj [("attributes", JSValue.num 1)]] ∧
    hasField (mergeBase [("name", JSValue.str "a/b"), ("save", JSValue.func 0)]
      (JSValue.obj [("attributes", JSValue.num 1)])) "livefield" = false :=
  ⟨(claim_C10 [("name", JSValue.str "a/b"), ("save", JSValue.func 0)]
      (JSValue.str "a/b")).1
      (fun v _ d => match d with
        | JSValue.null => setProp v "livefield" (JSValue.num 1)
        | _ => v)
      (fun v _ _ => v)
      [JSValue.obj [("attributes", JSValue.num 1)]]
      (by
        intro v n d hd
        cases d with
        | null => exact absurd rfl hd
        | undefined => rfl
        | bool b => rfl
        | num n2 => rfl
        | str s => rfl
        | func i => rfl
        | arr es2 => rfl
        | obj f => rfl)
      (by
        intro d hd
        simp only [List.mem_singleton] at hd
        subst hd
        exact fun hc => JSValue.noConfusion hc),
   (claim_C10 [("name", JSValue.str "a/b"), ("save", JSValue.func 0)]
      (JSValue.str "a/b")).2
      (JSValue.obj [("attributes", JSValue.num 1)]) "livefield"
      (by decide) (by decide)⟩
